import Mathlib

/-!
Verification of an arithmetic-expression evaluator (tokenizer, shunting-yard
infix-to-postfix converter, postfix evaluator) against its specification.

The embedding follows `src/lib.rs` line by line. Numeric values are modelled
as exact rationals (`ℚ`); every concrete input appearing in the theorems below
uses only small decimal literals and arithmetic that is exact in `f64`, so the
rational model agrees with the Rust semantics on all of them. Errors are the
literal `String` messages produced by the Rust code.
-/

instance {ε α : Type} [DecidableEq ε] [DecidableEq α] : DecidableEq (Except ε α)
  | Except.error a, Except.error b =>
    match decEq a b with
    | isTrue h => isTrue (congrArg Except.error h)
    | isFalse h => isFalse (fun hh => h (Except.error.inj hh))
  | Except.error _, Except.ok _ => isFalse (fun h => Except.noConfusion h)
  | Except.ok _, Except.error _ => isFalse (fun h => Except.noConfusion h)
  | Except.ok a, Except.ok b =>
    match decEq a b with
    | isTrue h => isTrue (congrArg Except.ok h)
    | isFalse h => isFalse (fun hh => h (Except.ok.inj hh))

/-- Token: a number, an operator character, or a parenthesis.
Mirrors `enum Token` in the source. -/
inductive Token where
  | Number (value : ℚ)
  | Operator (symbol : Char)
  | LeftParen
  | RightParen
deriving DecidableEq, Repr

/-- Characters accumulated into a numeric literal buffer by the scanner:
decimal digits and the decimal point (`digit.is_digit(10) || digit == '.'`). -/
def numChar (c : Char) : Bool :=
  c.isDigit || c = '.'

/-- Interpretation of a digit list as a natural number, most significant first. -/
def digitsToNat (l : List Char) : Nat :=
  l.foldl (fun acc c => 10 * acc + (c.toNat - ('0').toNat)) 0

/-- Model of Rust `f64::from_str` restricted to the buffers the tokenizer can
feed it (nonempty strings over digits and `.`): such a buffer parses exactly
when it holds at most one decimal point and at least one digit, and its value
is the usual decimal reading. The value is kept as an exact rational; `f64`
rounding is not modelled, which is exact on every literal used below. -/
def parseDecimal (s : List Char) : Option ℚ :=
  if (s.count '.' ≤ 1 && s.any Char.isDigit) = true then
    let intPart := s.takeWhile (fun c => c ≠ '.')
    let fracPart := (s.dropWhile (fun c => c ≠ '.')).drop 1
    some ((digitsToNat intPart : ℚ) + (digitsToNat fracPart : ℚ) / (10 : ℚ) ^ fracPart.length)
  else
    none

/-- Worker for the tokenizer, consuming the character list left to right.
Mirrors the `while let Some(&c) = chars.peek()` loop of `tokenize`: a digit or
dot starts a greedy numeric-buffer scan, the four operator characters and the
parentheses become single tokens, a space is skipped, anything else is the
unknown-character error. The fuel argument only drives structural recursion;
every loop iteration consumes at least one character, so fuel equal to the
input length never runs out (`tokenizeGo_fuel` below), and the fuel-exhausted
branch is unreachable from `tokenize`. -/
def tokenizeGo : Nat → List Char → Except String (List Token)
  | _, [] => Except.ok []
  | 0, _ :: _ => Except.error ""
  | fuel + 1, c :: cs =>
    if numChar c = true then
      let numberStr := c :: cs.takeWhile numChar
      match parseDecimal numberStr with
      | none => Except.error ("Невірне число: " ++ String.mk numberStr)
      | some q =>
        match tokenizeGo fuel (cs.dropWhile numChar) with
        | Except.error e => Except.error e
        | Except.ok ts => Except.ok (Token.Number q :: ts)
    else if c = '+' ∨ c = '-' ∨ c = '*' ∨ c = '/' then
      match tokenizeGo fuel cs with
      | Except.error e => Except.error e
      | Except.ok ts => Except.ok (Token.Operator c :: ts)
    else if c = '(' then
      match tokenizeGo fuel cs with
      | Except.error e => Except.error e
      | Except.ok ts => Except.ok (Token.LeftParen :: ts)
    else if c = ')' then
      match tokenizeGo fuel cs with
      | Except.error e => Except.error e
      | Except.ok ts => Except.ok (Token.RightParen :: ts)
    else if c = ' ' then
      tokenizeGo fuel cs
    else
      Except.error ("Невідомий символ: " ++ String.singleton c)

/-- Tokenizer on a character list, with fuel fixed to the input length. -/
def tokenizeL (l : List Char) : Except String (List Token) :=
  tokenizeGo l.length l

/-- Tokenizer entry point: `fn tokenize(expr: &str)`. -/
def tokenize (expr : String) : Except String (List Token) :=
  tokenizeL expr.data

/-- Operator precedence: `fn precedence(op: char)`. Additive operators rank 1,
multiplicative rank 2, anything else 0. -/
def precedence (op : Char) : Nat :=
  if op = '+' ∨ op = '-' then 1
  else if op = '*' ∨ op = '/' then 2
  else 0

/-- The `while let Some(Token::Operator(top_op)) = operators.back()` loop of
`to_rpn`: pop stack-top operators of greater-or-equal precedence. The stack is
a list with its head as the top. Returns the popped tokens in pop order and
the remaining stack. -/
def popWhileGE (op : Char) : List Token → List Token × List Token
  | Token.Operator topOp :: rest =>
    if precedence op ≤ precedence topOp then
      let r := popWhileGE op rest
      (Token.Operator topOp :: r.1, r.2)
    else
      ([], Token.Operator topOp :: rest)
  | st => ([], st)

/-- The `while let Some(op) = operators.pop_back()` loop run on a RightParen:
pop tokens to the output until a LeftParen is popped (and discarded); if the
stack empties first, stop silently. Returns the popped-to-output tokens in pop
order and the remaining stack. -/
def popUntilLP : List Token → List Token × List Token
  | [] => ([], [])
  | Token.LeftParen :: rest => ([], rest)
  | t :: rest =>
    let r := popUntilLP rest
    (t :: r.1, r.2)

/-- The end-of-input loop of `to_rpn`: pop every remaining stack entry to the
output, failing on the first LeftParen encountered. -/
def finishRpn (output : List Token) : List Token → Except String (List Token)
  | [] => Except.ok output
  | Token.LeftParen :: _ => Except.error "Незакриті дужки."
  | t :: rest => finishRpn (output ++ [t]) rest

/-- Main loop of `to_rpn` over the token list, carrying the output sequence
and the operator stack (head = top). -/
def toRpnGo : List Token → List Token → List Token → Except String (List Token)
  | [], output, operators => finishRpn output operators
  | Token.Number n :: ts, output, operators =>
    toRpnGo ts (output ++ [Token.Number n]) operators
  | Token.Operator op :: ts, output, operators =>
    let r := popWhileGE op operators
    toRpnGo ts (output ++ r.1) (Token.Operator op :: r.2)
  | Token.LeftParen :: ts, output, operators =>
    toRpnGo ts output (Token.LeftParen :: operators)
  | Token.RightParen :: ts, output, operators =>
    let r := popUntilLP operators
    toRpnGo ts (output ++ r.1) r.2

/-- Infix-to-postfix conversion: `fn to_rpn(tokens: Vec<Token>)`. -/
def to_rpn (tokens : List Token) : Except String (List Token) :=
  toRpnGo tokens [] []

/-- Application of one operator to the two popped operands (`a` left, `b`
right), as in the `match op` block of `evaluate_rpn`: `+`, `-`, `*` are total,
`/` first checks the right operand against zero, any other character is the
unknown-operation error. -/
def applyOp (op : Char) (a b : ℚ) : Except String ℚ :=
  if op = '+' then Except.ok (a + b)
  else if op = '-' then Except.ok (a - b)
  else if op = '*' then Except.ok (a * b)
  else if op = '/' then
    if b = 0 then Except.error "Помилка: Ділення на нуль."
    else Except.ok (a / b)
  else Except.error ("Невідома операція: " ++ String.singleton op)

/-- Worker for the postfix evaluator: the `for token in rpn` loop of
`evaluate_rpn` with the value stack as a list (head = top). A number is
pushed; an operator needs two stacked values, pops `b` then `a`, applies, and
pushes the result; a parenthesis token is the invalid-token error; at the end
the stack must hold exactly one value. -/
def evalGo : List Token → List ℚ → Except String ℚ
  | [], [v] => Except.ok v
  | [], _ => Except.error "Невірний вираз."
  | Token.Number n :: ts, stack => evalGo ts (n :: stack)
  | Token.Operator op :: ts, stack =>
    match stack with
    | b :: a :: rest =>
      match applyOp op a b with
      | Except.error e => Except.error e
      | Except.ok result => evalGo ts (result :: rest)
    | _ => Except.error "Недостатньо операндів для виконання операції."
  | _ :: _, _ => Except.error "Невірний токен."

/-- Postfix evaluation: `fn evaluate_rpn(rpn: &[Token])`. -/
def evaluate_rpn (rpn : List Token) : Except String ℚ :=
  evalGo rpn []

/-- Whole pipeline: `fn evaluate_expression(expr: &str)` — tokenize, convert
to postfix, evaluate, short-circuiting on the first error. -/
def evaluate_expression (expr : String) : Except String ℚ :=
  match tokenize expr with
  | Except.error e => Except.error e
  | Except.ok tokens =>
    match to_rpn tokens with
    | Except.error e => Except.error e
    | Except.ok rpn => evaluate_rpn rpn

/-- Number of LeftParen tokens in a list (used for the operator stack). -/
def countLP : List Token → Nat
  | [] => 0
  | Token.LeftParen :: rest => countLP rest + 1
  | _ :: rest => countLP rest

/-- Running count of LeftParens that remain unmatched after scanning the
token list, starting from `c` already-open parens: a LeftParen opens one, a
RightParen closes the innermost open one if any (clamped at zero, matching
the converter, which silently ignores a RightParen on an empty stack). -/
def unclosedAfter : Nat → List Token → Nat
  | c, [] => c
  | c, Token.LeftParen :: ts => unclosedAfter (c + 1) ts
  | c, Token.RightParen :: ts => unclosedAfter (c - 1) ts
  | c, _ :: ts => unclosedAfter c ts

/-- Number of LeftParen tokens of the sequence that no RightParen ever
matches: positive exactly when some LeftParen is never closed. -/
def unclosedCount (ts : List Token) : Nat :=
  unclosedAfter 0 ts

/-- Tokens the converter may emit to the output: numbers and operators. -/
def isNumOrOp : Token → Bool
  | Token.Number _ => true
  | Token.Operator _ => true
  | _ => false

/-- Tokens the converter may hold on the operator stack: operators and
LeftParens (a RightParen is never pushed). -/
def isStackTok : Token → Bool
  | Token.Operator _ => true
  | Token.LeftParen => true
  | _ => false

/-- Result classifier for the converter: did it return a postfix sequence? -/
def isOkList : Except String (List Token) → Bool
  | Except.ok _ => true
  | Except.error _ => false


/-- Any fuel at least the input length computes the same token sequence, so
the fuel parameter of `tokenizeGo` is semantically inert. -/
theorem tokenizeGo_fuel : ∀ f g l, l.length ≤ f → l.length ≤ g →
    tokenizeGo f l = tokenizeGo g l := by
  intro f
  induction f with
  | zero =>
    intro g l hf _
    cases l with
    | nil => cases g <;> rfl
    | cons c cs => simp at hf
  | succ f ih =>
    intro g l hf hg
    cases l with
    | nil => cases g <;> rfl
    | cons c cs =>
      cases g with
      | zero => simp at hg
      | succ g =>
        simp only [List.length_cons, Nat.succ_le_succ_iff] at hf hg
        show tokenizeGo (f + 1) (c :: cs) = tokenizeGo (g + 1) (c :: cs)
        simp only [tokenizeGo]
        have hdrop : (cs.dropWhile numChar).length ≤ cs.length :=
          (List.dropWhile_sublist numChar).length_le
        rw [ih g (cs.dropWhile numChar) (le_trans hdrop hf) (le_trans hdrop hg),
          ih g cs hf hg]

theorem popWhileGE_snd_countLP (op : Char) :
    ∀ st, countLP (popWhileGE op st).2 = countLP st := by
  intro st
  induction st with
  | nil => rfl
  | cons t rest ih =>
    cases t with
    | Operator topOp =>
      simp only [popWhileGE]
      split
      · simpa [countLP] using ih
      · rfl
    | Number n => rfl
    | LeftParen => rfl
    | RightParen => rfl

theorem popWhileGE_fst_ops (op : Char) :
    ∀ st, ((popWhileGE op st).1.all isNumOrOp) = true := by
  intro st
  induction st with
  | nil => rfl
  | cons t rest ih =>
    cases t with
    | Operator topOp =>
      simp only [popWhileGE]
      split
      · simpa [isNumOrOp] using ih
      · rfl
    | Number n => rfl
    | LeftParen => rfl
    | RightParen => rfl

theorem popWhileGE_snd_stackTok (op : Char) :
    ∀ st, st.all isStackTok = true → ((popWhileGE op st).2.all isStackTok) = true := by
  intro st
  induction st with
  | nil => intro _; rfl
  | cons t rest ih =>
    intro hall
    rw [List.all_cons, Bool.and_eq_true] at hall
    cases t with
    | Operator topOp =>
      simp only [popWhileGE]
      split
      · exact ih hall.2
      · simpa [isStackTok] using hall.2
    | Number n => simp [isStackTok] at hall
    | LeftParen => simpa [popWhileGE, isStackTok] using hall.2
    | RightParen => simp [isStackTok] at hall

theorem popUntilLP_snd_countLP :
    ∀ st, countLP (popUntilLP st).2 = countLP st - 1 := by
  intro st
  induction st with
  | nil => rfl
  | cons t rest ih =>
    cases t with
    | LeftParen => simp [popUntilLP, countLP]
    | Number n => simpa [popUntilLP, countLP] using ih
    | Operator op => simpa [popUntilLP, countLP] using ih
    | RightParen => simpa [popUntilLP, countLP] using ih

theorem popUntilLP_fst_ops :
    ∀ st, st.all isStackTok = true → ((popUntilLP st).1.all isNumOrOp) = true := by
  intro st
  induction st with
  | nil => intro _; rfl
  | cons t rest ih =>
    intro hall
    rw [List.all_cons, Bool.and_eq_true] at hall
    cases t with
    | LeftParen => rfl
    | Number n => simp [isStackTok] at hall
    | Operator op => simpa [popUntilLP, isNumOrOp] using ih hall.2
    | RightParen => simp [isStackTok] at hall

theorem popUntilLP_snd_stackTok :
    ∀ st, st.all isStackTok = true → ((popUntilLP st).2.all isStackTok) = true := by
  intro st
  induction st with
  | nil => intro _; rfl
  | cons t rest ih =>
    intro hall
    rw [List.all_cons, Bool.and_eq_true] at hall
    cases t with
    | LeftParen => exact hall.2
    | Number n => simp [isStackTok] at hall
    | Operator op => simpa [popUntilLP] using ih hall.2
    | RightParen => simp [isStackTok] at hall

theorem finishRpn_of_countLP_zero :
    ∀ st out, countLP st = 0 → finishRpn out st = Except.ok (out ++ st) := by
  intro st
  induction st with
  | nil => intro out _; simp [finishRpn]
  | cons t rest ih =>
    intro out hc
    cases t with
    | LeftParen => simp [countLP] at hc
    | Number n =>
      rw [show countLP (Token.Number n :: rest) = countLP rest from rfl] at hc
      simpa [finishRpn] using ih (out ++ [Token.Number n]) hc
    | Operator op =>
      rw [show countLP (Token.Operator op :: rest) = countLP rest from rfl] at hc
      simpa [finishRpn] using ih (out ++ [Token.Operator op]) hc
    | RightParen =>
      rw [show countLP (Token.RightParen :: rest) = countLP rest from rfl] at hc
      simpa [finishRpn] using ih (out ++ [Token.RightParen]) hc

theorem finishRpn_of_countLP_pos :
    ∀ st out, countLP st ≠ 0 → finishRpn out st = Except.error "Незакриті дужки." := by
  intro st
  induction st with
  | nil => intro out hc; exact absurd rfl hc
  | cons t rest ih =>
    intro out hc
    cases t with
    | LeftParen => rfl
    | Number n => exact ih (out ++ [Token.Number n]) hc
    | Operator op => exact ih (out ++ [Token.Operator op]) hc
    | RightParen => exact ih (out ++ [Token.RightParen]) hc

theorem toRpnGo_ok_of_balanced : ∀ ts out stack,
    unclosedAfter (countLP stack) ts = 0 →
    ∃ res, toRpnGo ts out stack = Except.ok res := by
  intro ts
  induction ts with
  | nil =>
    intro out stack h
    exact ⟨out ++ stack, finishRpn_of_countLP_zero stack out h⟩
  | cons t ts ih =>
    intro out stack h
    cases t with
    | Number n =>
      simp only [toRpnGo]
      exact ih (out ++ [Token.Number n]) stack h
    | Operator op =>
      simp only [toRpnGo]
      apply ih (out ++ (popWhileGE op stack).1) (Token.Operator op :: (popWhileGE op stack).2)
      show unclosedAfter (countLP (popWhileGE op stack).2) ts = 0
      rw [popWhileGE_snd_countLP op stack]
      exact h
    | LeftParen =>
      simp only [toRpnGo]
      apply ih out (Token.LeftParen :: stack)
      show unclosedAfter (countLP stack + 1) ts = 0
      exact h
    | RightParen =>
      simp only [toRpnGo]
      apply ih (out ++ (popUntilLP stack).1) (popUntilLP stack).2
      rw [popUntilLP_snd_countLP stack]
      exact h

theorem toRpnGo_err_of_unclosed : ∀ ts out stack,
    unclosedAfter (countLP stack) ts ≠ 0 →
    toRpnGo ts out stack = Except.error "Незакриті дужки." := by
  intro ts
  induction ts with
  | nil =>
    intro out stack h
    exact finishRpn_of_countLP_pos stack out h
  | cons t ts ih =>
    intro out stack h
    cases t with
    | Number n =>
      simp only [toRpnGo]
      exact ih (out ++ [Token.Number n]) stack h
    | Operator op =>
      simp only [toRpnGo]
      apply ih (out ++ (popWhileGE op stack).1) (Token.Operator op :: (popWhileGE op stack).2)
      show unclosedAfter (countLP (popWhileGE op stack).2) ts ≠ 0
      rw [popWhileGE_snd_countLP op stack]
      exact h
    | LeftParen =>
      simp only [toRpnGo]
      apply ih out (Token.LeftParen :: stack)
      show unclosedAfter (countLP stack + 1) ts ≠ 0
      exact h
    | RightParen =>
      simp only [toRpnGo]
      apply ih (out ++ (popUntilLP stack).1) (popUntilLP stack).2
      rw [popUntilLP_snd_countLP stack]
      exact h

theorem to_rpn_ok_of_balanced (ts : List Token) (h : unclosedCount ts = 0) :
    ∃ res, to_rpn ts = Except.ok res :=
  toRpnGo_ok_of_balanced ts [] [] h

theorem to_rpn_err_of_unclosed (ts : List Token) (h : unclosedCount ts ≠ 0) :
    to_rpn ts = Except.error "Незакриті дужки." :=
  toRpnGo_err_of_unclosed ts [] [] h

theorem finishRpn_all_numOrOp :
    ∀ st out res, finishRpn out st = Except.ok res →
    out.all isNumOrOp = true → st.all isStackTok = true →
    res.all isNumOrOp = true := by
  intro st
  induction st with
  | nil =>
    intro out res heq hout _
    obtain rfl : out = res := Except.ok.inj heq
    exact hout
  | cons t rest ih =>
    intro out res heq hout hstack
    rw [List.all_cons, Bool.and_eq_true] at hstack
    cases t with
    | LeftParen => exact absurd heq (by simp [finishRpn])
    | Number n => simp [isStackTok] at hstack
    | RightParen => simp [isStackTok] at hstack
    | Operator op =>
      refine ih (out ++ [Token.Operator op]) res heq ?_ hstack.2
      simp [List.all_append, hout, isNumOrOp]

theorem toRpnGo_all_numOrOp : ∀ ts out stack res,
    toRpnGo ts out stack = Except.ok res →
    out.all isNumOrOp = true → stack.all isStackTok = true →
    res.all isNumOrOp = true := by
  intro ts
  induction ts with
  | nil =>
    intro out stack res heq hout hstack
    exact finishRpn_all_numOrOp stack out res heq hout hstack
  | cons t ts ih =>
    intro out stack res heq hout hstack
    cases t with
    | Number n =>
      simp only [toRpnGo] at heq
      exact ih (out ++ [Token.Number n]) stack res heq
        (by simp [List.all_append, hout, isNumOrOp]) hstack
    | Operator op =>
      simp only [toRpnGo] at heq
      refine ih (out ++ (popWhileGE op stack).1)
        (Token.Operator op :: (popWhileGE op stack).2) res heq ?_ ?_
      · simp [List.all_append, hout, popWhileGE_fst_ops op stack]
      · simp [List.all_cons, isStackTok, popWhileGE_snd_stackTok op stack hstack]
    | LeftParen =>
      simp only [toRpnGo] at heq
      exact ih out (Token.LeftParen :: stack) res heq hout
        (by simp [List.all_cons, isStackTok, hstack])
    | RightParen =>
      simp only [toRpnGo] at heq
      refine ih (out ++ (popUntilLP stack).1) (popUntilLP stack).2 res heq ?_
        (popUntilLP_snd_stackTok stack hstack)
      simp [List.all_append, hout, popUntilLP_fst_ops stack hstack]

theorem to_rpn_all_numOrOp (ts res : List Token) (h : to_rpn ts = Except.ok res) :
    res.all isNumOrOp = true :=
  toRpnGo_all_numOrOp ts [] [] res h rfl rfl

theorem applyOp_ne_invalid (op : Char) (a b : ℚ) :
    applyOp op a b ≠ Except.error "Невірний токен." := by
  unfold applyOp
  split_ifs
  · exact fun h => Except.noConfusion h
  · exact fun h => Except.noConfusion h
  · exact fun h => Except.noConfusion h
  · intro h
    have := Except.error.inj h
    simp at this
  · exact fun h => Except.noConfusion h
  · intro h
    have hlen := congrArg String.length (Except.error.inj h)
    rw [String.length_append] at hlen
    rw [show (String.singleton op).length = 1 from rfl,
      show ("Невідома операція: " : String).length = 19 from rfl,
      show ("Невірний токен." : String).length = 15 from rfl] at hlen
    simp at hlen

theorem evalGo_ne_invalid : ∀ rpn s, rpn.all isNumOrOp = true →
    evalGo rpn s ≠ Except.error "Невірний токен." := by
  intro rpn
  induction rpn with
  | nil =>
    intro s _
    match s with
    | [] => intro h; exact absurd (Except.error.inj h) (by simp)
    | [v] => exact fun h => Except.noConfusion h
    | v :: w :: rest => intro h; exact absurd (Except.error.inj h) (by simp)
  | cons t ts ih =>
    intro s hall
    rw [List.all_cons, Bool.and_eq_true] at hall
    cases t with
    | Number n => exact ih (n :: s) hall.2
    | LeftParen => simp [isNumOrOp] at hall
    | RightParen => simp [isNumOrOp] at hall
    | Operator op =>
      match s with
      | [] => intro h; exact absurd (Except.error.inj h) (by simp)
      | [v] => intro h; exact absurd (Except.error.inj h) (by simp)
      | b :: a :: rest =>
        show (match applyOp op a b with
          | Except.error e => Except.error e
          | Except.ok result => evalGo ts (result :: rest)) ≠ _
        cases happ : applyOp op a b with
        | error e =>
          intro h
          exact applyOp_ne_invalid op a b (happ.trans h)
        | ok result =>
          exact ih (result :: rest) hall.2

theorem tokenizeL_space (cs : List Char) : tokenizeL (' ' :: cs) = tokenizeL cs := by
  show tokenizeGo (cs.length + 1) (' ' :: cs) = tokenizeGo cs.length cs
  simp only [tokenizeGo]
  rw [if_neg (by decide), if_neg (by decide), if_neg (by decide), if_neg (by decide),
    if_pos trivial]

theorem tokenizeL_unknown (c : Char) (cs : List Char)
    (h0 : ¬numChar c = true) (h1 : ¬(c = '+' ∨ c = '-' ∨ c = '*' ∨ c = '/'))
    (h2 : ¬c = '(') (h3 : ¬c = ')') (h4 : ¬c = ' ') :
    tokenizeL (c :: cs) = Except.error ("Невідомий символ: " ++ String.singleton c) := by
  show tokenizeGo (cs.length + 1) (c :: cs) = _
  simp only [tokenizeGo]
  rw [if_neg h0, if_neg h1, if_neg h2, if_neg h3, if_neg h4]

theorem tokenizeGo_spaces : ∀ f cs, cs.length ≤ f →
    cs.all (fun c => c = ' ') = true → tokenizeGo f cs = Except.ok [] := by
  intro f
  induction f with
  | zero =>
    intro cs hf _
    have hnil : cs = [] := List.eq_nil_of_length_eq_zero (Nat.le_zero.mp hf)
    subst hnil
    rfl
  | succ f ih =>
    intro cs hf hall
    cases cs with
    | nil => rfl
    | cons c cs =>
      rw [List.all_cons, Bool.and_eq_true] at hall
      have hc : c = ' ' := by simpa using hall.1
      subst hc
      show tokenizeGo (f + 1) (' ' :: cs) = Except.ok []
      simp only [tokenizeGo]
      rw [if_neg (by decide), if_neg (by decide), if_neg (by decide), if_neg (by decide),
        if_pos trivial]
      exact ih cs (Nat.succ_le_succ_iff.mp (by simpa using hf)) hall.2

theorem tokenizeL_num (c : Char) (cs : List Char) (h : numChar c = true) :
    tokenizeL (c :: cs) =
      match parseDecimal (c :: cs.takeWhile numChar) with
      | none => Except.error ("Невірне число: " ++ String.mk (c :: cs.takeWhile numChar))
      | some q =>
        match tokenizeL (cs.dropWhile numChar) with
        | Except.error e => Except.error e
        | Except.ok ts => Except.ok (Token.Number q :: ts) := by
  show tokenizeGo (cs.length + 1) (c :: cs) = _
  simp only [tokenizeGo, h, if_pos]
  rw [tokenizeGo_fuel cs.length (cs.dropWhile numChar).length (cs.dropWhile numChar)
    (List.dropWhile_sublist numChar).length_le (le_refl _)]
  rfl

theorem evalGo_insufficient (op : Char) (ts : List Token) (s : List ℚ)
    (h : s.length < 2) :
    evalGo (Token.Operator op :: ts) s =
      Except.error "Недостатньо операндів для виконання операції." := by
  match s with
  | [] => rfl
  | [v] => rfl
  | a :: b :: r => simp at h; omega

theorem evalGo_final_ok (v : ℚ) : evalGo [] [v] = Except.ok v := rfl

theorem evalGo_final_invalid (s : List ℚ) (h : s.length ≠ 1) :
    evalGo [] s = Except.error "Невірний вираз." := by
  match s with
  | [] => rfl
  | [v] => exact absurd rfl h
  | a :: b :: r => rfl

theorem applyOp_add (a b : ℚ) : applyOp '+' a b = Except.ok (a + b) := rfl

theorem applyOp_sub (a b : ℚ) : applyOp '-' a b = Except.ok (a - b) := rfl

theorem applyOp_mul (a b : ℚ) : applyOp '*' a b = Except.ok (a * b) := rfl

theorem applyOp_div_zero (a : ℚ) :
    applyOp '/' a 0 = Except.error "Помилка: Ділення на нуль." := rfl

theorem applyOp_div (a b : ℚ) (h : b ≠ 0) : applyOp '/' a b = Except.ok (a / b) := by
  simp only [applyOp]
  rw [if_neg (by decide), if_neg (by decide), if_neg (by decide), if_pos trivial, if_neg h]

/-- C2: precedence maps the additive operators to rank 1 and the
multiplicative operators to rank 2, so multiplicative operators bind tighter
and evaluating "2+3*4" yields 14, not 20. -/
theorem claim_C2 :
    precedence '+' = 1 ∧ precedence '-' = 1 ∧
    precedence '*' = 2 ∧ precedence '/' = 2 ∧
    evaluate_expression "2+3*4" = Except.ok 14 :=
  ⟨rfl, rfl, rfl, rfl, by with_unfolding_all decide⟩

/-- C3: an incoming operator pops a stack-top operator of greater-or-equal
precedence before being pushed, and the evaluator pops the stack top as the
right operand `b` and the next value as the left operand `a`, computing
`a op b`; hence "8-3-2" evaluates to 3 and "8/4/2" to 1 (left associativity). -/
theorem claim_C3 :
    (∀ (op topOp : Char) (st : List Token), precedence op ≤ precedence topOp →
      popWhileGE op (Token.Operator topOp :: st) =
        (Token.Operator topOp :: (popWhileGE op st).1, (popWhileGE op st).2)) ∧
    (∀ (ts : List Token) (a b : ℚ) (s : List ℚ),
      evalGo (Token.Operator '-' :: ts) (b :: a :: s) = evalGo ts ((a - b) :: s)) ∧
    (∀ (ts : List Token) (a b : ℚ) (s : List ℚ), b ≠ 0 →
      evalGo (Token.Operator '/' :: ts) (b :: a :: s) = evalGo ts ((a / b) :: s)) ∧
    evaluate_expression "8-3-2" = Except.ok 3 ∧
    evaluate_expression "8/4/2" = Except.ok 1 := by
  refine ⟨?_, ?_, ?_, by with_unfolding_all decide, by with_unfolding_all decide⟩
  · intro op topOp st h
    simp only [popWhileGE]
    rw [if_pos h]
  · intro ts a b s
    rfl
  · intro ts a b s h
    show (match applyOp '/' a b with
      | Except.error e => Except.error e
      | Except.ok result => evalGo ts (result :: s)) = evalGo ts ((a / b) :: s)
    rw [applyOp_div a b h]

theorem claim_C3_witness :
    popWhileGE '-' [Token.Operator '-'] =
      (Token.Operator '-' :: (popWhileGE '-' ([] : List Token)).1,
        (popWhileGE '-' ([] : List Token)).2) ∧
    evalGo [Token.Operator '-'] ((3 : ℚ) :: 8 :: []) = evalGo [] (((8 : ℚ) - 3) :: []) ∧
    evalGo [Token.Operator '/'] ((2 : ℚ) :: 8 :: []) = evalGo [] (((8 : ℚ) / 2) :: []) :=
  ⟨claim_C3.1 '-' '-' [] (by decide),
   claim_C3.2.1 [] 8 3 [],
   claim_C3.2.2.1 [] 8 2 [] (by norm_num)⟩

/-- C4: `+`, `-`, `*` always succeed; `/` fails with the division-by-zero
EvalError exactly when the right operand is zero, and otherwise returns the
quotient; in particular "5/0" evaluates to that error, not to a value. -/
theorem claim_C4 :
    (∀ a b : ℚ, applyOp '+' a b = Except.ok (a + b)) ∧
    (∀ a b : ℚ, applyOp '-' a b = Except.ok (a - b)) ∧
    (∀ a b : ℚ, applyOp '*' a b = Except.ok (a * b)) ∧
    (∀ a b : ℚ, b ≠ 0 → applyOp '/' a b = Except.ok (a / b)) ∧
    (∀ a : ℚ, applyOp '/' a 0 = Except.error "Помилка: Ділення на нуль.") ∧
    evaluate_expression "5/0" = Except.error "Помилка: Ділення на нуль." :=
  ⟨applyOp_add, applyOp_sub, applyOp_mul, applyOp_div, applyOp_div_zero,
   by with_unfolding_all decide⟩

theorem claim_C4_witness :
    applyOp '+' 1 2 = Except.ok ((1 : ℚ) + 2) ∧
    applyOp '/' 1 2 = Except.ok ((1 : ℚ) / 2) ∧
    applyOp '/' 5 0 = Except.error "Помилка: Ділення на нуль." :=
  ⟨claim_C4.1 1 2, claim_C4.2.2.2.1 1 2 (by norm_num), claim_C4.2.2.2.2.1 5⟩

/-- C5: whenever some LeftParen of the token sequence is never closed (the
clamped running count of unmatched LeftParens ends positive, e.g. for the
tokens of "(1+2"), the converter fails with the unclosed-parentheses
SyntaxError at end of input. -/
theorem claim_C5 (ts : List Token) (h : unclosedCount ts ≠ 0) :
    to_rpn ts = Except.error "Незакриті дужки." :=
  to_rpn_err_of_unclosed ts h

theorem claim_C5_witness :
    to_rpn [Token.LeftParen, Token.Number 1, Token.Operator '+', Token.Number 2] =
      Except.error "Незакриті дужки." :=
  claim_C5 [Token.LeftParen, Token.Number 1, Token.Operator '+', Token.Number 2]
    (by decide)

/-- C6: an operator token with fewer than two stacked values fails with the
insufficient-operands EvalError; an empty postfix run ending with a stack size
other than one fails with the invalid-expression EvalError; a final stack of
exactly one value is returned; "+" and "1 2" hit the two error cases. -/
theorem claim_C6 :
    (∀ (op : Char) (ts : List Token) (s : List ℚ), s.length < 2 →
      evalGo (Token.Operator op :: ts) s =
        Except.error "Недостатньо операндів для виконання операції.") ∧
    (∀ s : List ℚ, s.length ≠ 1 → evalGo [] s = Except.error "Невірний вираз.") ∧
    (∀ v : ℚ, evalGo [] [v] = Except.ok v) ∧
    evaluate_expression "+" =
      Except.error "Недостатньо операндів для виконання операції." ∧
    evaluate_expression "1 2" = Except.error "Невірний вираз." :=
  ⟨evalGo_insufficient, evalGo_final_invalid, evalGo_final_ok,
   by with_unfolding_all decide, by with_unfolding_all decide⟩

theorem claim_C6_witness :
    evalGo [Token.Operator '+'] ([] : List ℚ) =
      Except.error "Недостатньо операндів для виконання операції." ∧
    evalGo [] ([] : List ℚ) = Except.error "Невірний вираз." ∧
    evalGo [] [(5 : ℚ)] = Except.ok 5 :=
  ⟨claim_C6.1 '+' [] [] (by decide), claim_C6.2.1 [] (by decide), claim_C6.2.2.1 5⟩

/-- C7: the tokenizer silently skips the space character, so " 1 + 2 " and
"1+2" both evaluate to 3, while tab and newline are not skippable and fail
with the unknown-character LexError naming the offending character. -/
theorem claim_C7 :
    (∀ cs : List Char, tokenizeL (' ' :: cs) = tokenizeL cs) ∧
    (∀ (c : Char) (cs : List Char), c.isWhitespace = true → c ≠ ' ' →
      tokenizeL (c :: cs) = Except.error ("Невідомий символ: " ++ String.singleton c)) ∧
    evaluate_expression " 1 + 2 " = Except.ok 3 ∧
    evaluate_expression "1+2" = Except.ok 3 ∧
    tokenize "\t" = Except.error "Невідомий символ: \t" ∧
    tokenize "\n" = Except.error "Невідомий символ: \n" ∧
    evaluate_expression "\t" = Except.error "Невідомий символ: \t" ∧
    evaluate_expression "\n" = Except.error "Невідомий символ: \n" := by
  refine ⟨tokenizeL_space, ?_, by with_unfolding_all decide, by with_unfolding_all decide,
    by decide, by decide, by decide, by decide⟩
  intro c cs hw hsp
  have hcases : c = ' ' ∨ c = '\t' ∨ c = '\r' ∨ c = '\n' := by
    have h := hw
    simp [Char.isWhitespace] at h
    tauto
  rcases hcases with h | h | h | h
  · exact absurd h hsp
  · subst h
    exact tokenizeL_unknown _ cs (by decide) (by decide) (by decide) (by decide) (by decide)
  · subst h
    exact tokenizeL_unknown _ cs (by decide) (by decide) (by decide) (by decide) (by decide)
  · subst h
    exact tokenizeL_unknown _ cs (by decide) (by decide) (by decide) (by decide) (by decide)

theorem claim_C7_witness :
    tokenizeL ['\t'] = Except.error ("Невідомий символ: " ++ String.singleton '\t') :=
  claim_C7.2.1 '\t' [] (by decide) (by decide)

/-- C8: a maximal run of digit and dot characters is accumulated into one
literal buffer with no limit on decimal points; the buffer is rejected exactly
when the float conversion fails, and the LexError then carries the exact
accumulated literal text, as for "1..2" and "1.2.3". -/
theorem claim_C8 :
    (∀ (c : Char) (cs : List Char), numChar c = true →
      parseDecimal (c :: cs.takeWhile numChar) = none →
      tokenizeL (c :: cs) =
        Except.error ("Невірне число: " ++ String.mk (c :: cs.takeWhile numChar))) ∧
    (∀ (c : Char) (cs : List Char) (q : ℚ), numChar c = true →
      parseDecimal (c :: cs.takeWhile numChar) = some q →
      tokenizeL (c :: cs) =
        match tokenizeL (cs.dropWhile numChar) with
        | Except.error e => Except.error e
        | Except.ok ts => Except.ok (Token.Number q :: ts)) ∧
    parseDecimal ("1.2").data ≠ none ∧
    parseDecimal ("1..2").data = none ∧
    tokenize "1..2" = Except.error "Невірне число: 1..2" ∧
    tokenize "1.2.3" = Except.error "Невірне число: 1.2.3" := by
  refine ⟨?_, ?_, by decide, by decide,
    by with_unfolding_all decide, by with_unfolding_all decide⟩
  · intro c cs h hnone
    rw [tokenizeL_num c cs h, hnone]
  · intro c cs q h hsome
    rw [tokenizeL_num c cs h, hsome]

theorem claim_C8_witness :
    tokenizeL ['1', '.', '.', '2'] =
      Except.error ("Невірне число: " ++
        String.mk ('1' :: (['.', '.', '2'].takeWhile numChar))) ∧
    tokenizeL ['1', '+', '2'] =
      (match tokenizeL (['+', '2'].dropWhile numChar) with
        | Except.error e => Except.error e
        | Except.ok ts => Except.ok (Token.Number 1 :: ts)) :=
  ⟨claim_C8.1 '1' ['.', '.', '2'] (by decide) (by decide),
   claim_C8.2.1 '1' ['+', '2'] 1 (by decide) (by with_unfolding_all decide)⟩

/-- C9: a successful conversion emits only Number and Operator tokens, never a
parenthesis, so the evaluator's invalid-token branch can never fire on a
postfix sequence the converter produced. -/
theorem claim_C9 (ts res : List Token) (h : to_rpn ts = Except.ok res) :
    res.all isNumOrOp = true ∧
    (∀ s : List ℚ, evalGo res s ≠ Except.error "Невірний токен.") ∧
    evaluate_rpn res ≠ Except.error "Невірний токен." := by
  have hall := to_rpn_all_numOrOp ts res h
  exact ⟨hall, fun s => evalGo_ne_invalid res s hall, evalGo_ne_invalid res [] hall⟩

theorem claim_C9_witness :
    ([Token.Number 2, Token.Number 3, Token.Number 4,
        Token.Operator '*', Token.Operator '+'].all isNumOrOp = true) ∧
    evaluate_rpn [Token.Number 2, Token.Number 3, Token.Number 4,
        Token.Operator '*', Token.Operator '+'] ≠ Except.error "Невірний токен." :=
  ⟨(claim_C9 [Token.Number 2, Token.Operator '+', Token.Number 3,
      Token.Operator '*', Token.Number 4]
      [Token.Number 2, Token.Number 3, Token.Number 4,
        Token.Operator '*', Token.Operator '+']
      (by with_unfolding_all decide)).1,
   (claim_C9 [Token.Number 2, Token.Operator '+', Token.Number 3,
      Token.Operator '*', Token.Number 4]
      [Token.Number 2, Token.Number 3, Token.Number 4,
        Token.Operator '*', Token.Operator '+']
      (by with_unfolding_all decide)).2.2⟩

/-- C10: the empty string and all-space strings tokenize to the empty token
sequence, convert to the empty postfix sequence, and are rejected by the
evaluator with the invalid-expression EvalError (final stack size zero). -/
theorem claim_C10 :
    (∀ cs : List Char, cs.all (fun c => c = ' ') = true → tokenizeL cs = Except.ok []) ∧
    tokenize "" = Except.ok [] ∧
    to_rpn [] = Except.ok [] ∧
    evaluate_rpn [] = Except.error "Невірний вираз." ∧
    evaluate_expression "" = Except.error "Невірний вираз." ∧
    evaluate_expression "   " = Except.error "Невірний вираз." :=
  ⟨fun cs h => tokenizeGo_spaces cs.length cs (le_refl _) h,
   by decide, by decide, by decide, by decide, by decide⟩

theorem claim_C10_witness : tokenizeL [' ', ' ', ' '] = Except.ok [] :=
  claim_C10.1 [' ', ' ', ' '] (by decide)

/-- C1 (counterexample): the claim says "1+2)" must fail with a SyntaxError
for a mismatched closing parenthesis, but the converter succeeds on its token
sequence and the pipeline returns 3. -/
theorem claim_C1_counterexample :
    evaluate_expression "1+2)" = Except.ok 3 ∧
    to_rpn [Token.Number 1, Token.Operator '+', Token.Number 2, Token.RightParen] =
      Except.ok [Token.Number 1, Token.Number 2, Token.Operator '+'] := by
  exact ⟨by with_unfolding_all decide, by with_unfolding_all decide⟩

/-- C1 (amended): a RightParen that empties the operator stack without finding
a LeftParen does not make the converter fail; whenever no LeftParen of the
sequence stays unmatched (stray RightParens allowed), conversion returns a
postfix sequence. -/
theorem claim_C1_amended (ts : List Token) (h : unclosedCount ts = 0) :
    isOkList (to_rpn ts) = true := by
  obtain ⟨res, hres⟩ := to_rpn_ok_of_balanced ts h
  rw [hres]
  rfl

theorem claim_C1_amended_witness :
    isOkList (to_rpn [Token.Number 1, Token.Operator '+', Token.Number 2,
      Token.RightParen]) = true :=
  claim_C1_amended
    [Token.Number 1, Token.Operator '+', Token.Number 2, Token.RightParen]
    (by decide)
